import Mathlib

/-!
Shallow embedding of the myKis overseas-equity trading engine, covering the
parts of the code that the verified claims refer to:

* `src/api/auth.py`        — token cache validity, `get_token`, `invalidate_token`,
                             issuance-cooldown metadata (`token_meta_{mode}.json`);
* `src/api/order.py`       — decimal price formatters `_format_ovrs_ord_unpr`
                             and `_format_order_price`;
* `src/engine/position_store.py` — `upsert`, `set_open_date`, `mark_missing`,
                             `clear_missing`, `get_missing_count`;
* `src/engine/engine.py`   — the schedule gate and run-day marker of `_run_core`,
                             the missing-symbol sweep, the FX-unavailable policy,
                             the `_buy_with_ask_ladder` ladder with its fallback
                             dispatch, and the cycle finalization.

Machine times are modelled as integer seconds, calendar days as `YYYYMMDD`
naturals (8-digit decimal strings compare lexicographically exactly as the
corresponding naturals compare), prices as rationals, and Python `Decimal`
values as a decimal mantissa/exponent pair.  External effects (HTTP calls,
sleeps, file I/O) are supplied by explicit environment records; persisted JSON
files are explicit state threaded through the operations.
-/

namespace MyKis

/-! ## Token arbitration (`src/api/auth.py`) -/

/-- In-memory cached token entry `access_tokens[mode]`:
`{'token': ..., 'expired_at': ...}`, both `None` initially. -/
structure TokenInfo where
  token : Option String
  expired_at : Option Int
deriving Repr, DecidableEq

/-- `KisAuth._is_token_valid`: the entry is valid iff token and expiry are both
present and `now < expired_at - 60` (60-second safety margin). -/
def is_token_valid (ti : Option TokenInfo) (now : Int) : Bool :=
  match ti with
  | none => false
  | some t =>
    match t.token, t.expired_at with
    | some _, some e => decide (now < e - 60)
    | _, _ => false

/-- Result of `KisAuth.get_token`: the returned value together with whether it
was served from the cache (the early-return branches on the cached entry). -/
structure GetTokenResult where
  result : Option String
  from_cache : Bool
deriving Repr, DecidableEq

/-- `KisAuth.get_token(mode)`.  The cached entry, the current time, the
cross-process issue cooldown, and the outcome that `_issue_token` would
produce are explicit inputs.  Under the per-mode `threading.Lock` the cached
entry and cooldown are re-checked; in this sequential embedding the re-read
state is unchanged, mirroring the code's double-check structure. -/
def get_token (cached : Option TokenInfo) (now : Int) (in_cooldown : Bool)
    (issue_result : Option String) : GetTokenResult :=
  if is_token_valid cached now then
    { result := cached.bind (fun t => t.token), from_cache := true }
  else if in_cooldown then
    { result := none, from_cache := false }
  else
    -- body of `with lock:` — state re-read, unchanged here
    if is_token_valid cached now then
      { result := cached.bind (fun t => t.token), from_cache := true }
    else if in_cooldown then
      { result := none, from_cache := false }
    else
      { result := issue_result, from_cache := false }

/-- Persisted per-mode token metadata file `token_meta_{mode}.json`:
`next_issue_at` gates issuance attempts, `reason`/`updated_at` are advisory. -/
structure TokenMeta where
  next_issue_at : Option Int
  reason : Option String
  updated_at : Option Int
deriving Repr, DecidableEq

/-- `KisAuth._is_in_issue_cooldown`: true iff a `next_issue_at` is recorded and
`now` is still before it. -/
def is_in_issue_cooldown (meta : TokenMeta) (now : Int) : Bool :=
  match meta.next_issue_at with
  | none => false
  | some dt => decide (now < dt)

/-- The two account modes. -/
inductive Mode
  | mock
  | real
deriving Repr, DecidableEq

/-- Full `KisAuth` state: the in-memory cache and the persisted metadata file,
one of each per mode. -/
structure AuthState where
  cache_mock : TokenInfo
  cache_real : TokenInfo
  meta_mock : TokenMeta
  meta_real : TokenMeta
deriving Repr, DecidableEq

/-- Read the cached entry for a mode. -/
def AuthState.cacheOf (s : AuthState) : Mode → TokenInfo
  | .mock => s.cache_mock
  | .real => s.cache_real

/-- Read the persisted metadata file for a mode. -/
def AuthState.metaOf (s : AuthState) : Mode → TokenMeta
  | .mock => s.meta_mock
  | .real => s.meta_real

/-- `KisAuth.invalidate_token(mode)`: force-clear the cached token and expiry
for that mode.  It touches only `access_tokens[mode]`. -/
def invalidate_token (s : AuthState) (mode : Mode) : AuthState :=
  match mode with
  | .mock => { s with cache_mock := { token := none, expired_at := none } }
  | .real => { s with cache_real := { token := none, expired_at := none } }

/-! ## Decimal price formatters (`src/api/order.py`) -/

/-- A Python `Decimal` as produced by `Decimal(str(price))`: a (signed) decimal
mantissa and a base-10 fractional exponent; the denoted value is
`man / 10^exp`. -/
structure Dec where
  man : Int
  exp : Nat
deriving Repr, DecidableEq

/-- The rational value denoted by a `Dec`. -/
def decValue (d : Dec) : ℚ :=
  (d.man : ℚ) / (10 : ℚ) ^ d.exp

/-- `d.quantize(10^-k, rounding=ROUND_DOWN)` on a value first clamped to be
nonnegative (both formatters replace a negative price by `0`), returned as the
scaled integer `⌊value · 10^k⌋`.  For nonnegative values `ROUND_DOWN`
(truncation toward zero) coincides with flooring. -/
def truncScaled (d : Dec) (k : Nat) : Nat :=
  if d.man ≤ 0 then 0
  else if d.exp ≤ k then d.man.toNat * 10 ^ (k - d.exp)
  else d.man.toNat / 10 ^ (d.exp - k)

/-- Decimal digit character. -/
def digitChar : Nat → Char
  | 0 => '0'
  | 1 => '1'
  | 2 => '2'
  | 3 => '3'
  | 4 => '4'
  | 5 => '5'
  | 6 => '6'
  | 7 => '7'
  | 8 => '8'
  | 9 => '9'
  | _ => '*'

/-- Fuel-driven base-10 digit rendering (most significant digit first once the
accumulator is reversed into place). -/
def natDigitsCore : Nat → Nat → List Char → List Char
  | 0, _, acc => acc
  | fuel + 1, n, acc =>
    if n = 0 then acc
    else natDigitsCore fuel (n / 10) (digitChar (n % 10) :: acc)

/-- Decimal digits of a natural number, as `str` renders it. -/
def natDigits (n : Nat) : List Char :=
  if n = 0 then ['0'] else natDigitsCore (n + 1) n []

/-- Left-pad a digit list with zeros up to width `k`. -/
def padZeros (s : List Char) (k : Nat) : List Char :=
  List.replicate (k - s.length) '0' ++ s

/-- `format(d, "f")` for a quantized nonnegative decimal given as the scaled
integer `n` with `digits` fractional places: `"<int part>.<frac part>"` with
exactly `digits` fractional characters. -/
def renderScaled (n : Nat) (digits : Nat) : List Char :=
  natDigits (n / 10 ^ digits) ++ '.' :: padZeros (natDigits (n % 10 ^ digits)) digits

/-- Python `s.rstrip(c)` on a character list. -/
def rstrip (cs : List Char) (c : Char) : List Char :=
  (cs.reverse.dropWhile (fun x => x = c)).reverse

/-- `KisOrder._format_ovrs_ord_unpr(price)`: clamp negatives to zero, truncate
to 8 fractional digits (`quantize(Decimal("0.00000001"), ROUND_DOWN)`), render
with `format(d, "f")`, then strip trailing zeros and a trailing dot, with `"0"`
for an empty result.  `quantize` signals `InvalidOperation` when the quantized
coefficient would exceed the default `Decimal` context precision of 28 digits
— i.e. when the scaled integer is `≥ 10^28` — and the surrounding
`except (InvalidOperation, ...)` then returns the literal `"0.00000000"`. -/
def format_ovrs_ord_unpr (price : Dec) : String :=
  if 10 ^ 28 ≤ truncScaled price 8 then "0.00000000"
  else
    let s := renderScaled (truncScaled price 8) 8
    let s := rstrip (rstrip s '0') '.'
    if s = [] then "0" else String.mk s

/-- `KisOrder._format_order_price(price)`: clamp negatives to zero; `"0"` for
zero; otherwise truncate to 2 fractional digits when the value is `≥ 1` and to
4 fractional digits when it is `< 1`, rendered with trailing zeros kept.
As above, a quantized coefficient of more than 28 digits (`≥ 10^28`) raises
`InvalidOperation` inside the `try` and the handler returns `"0"`. -/
def format_order_price (price : Dec) : String :=
  if price.man ≤ 0 then "0"
  else if (10 : Int) ^ price.exp ≤ price.man then
    if 10 ^ 28 ≤ truncScaled price 2 then "0"
    else String.mk (renderScaled (truncScaled price 2) 2)
  else
    if 10 ^ 28 ≤ truncScaled price 4 then "0"
    else String.mk (renderScaled (truncScaled price 4) 4)

/-- Number of fractional digits a rendered price string displays: the length
of the suffix after the last `'.'`, `0` when no dot is present. -/
def fracDigits (s : String) : Nat :=
  if '.' ∈ s.data then (s.data.reverse.takeWhile (fun c => c ≠ '.')).length
  else 0

/-- The IEEE-754 double sum `0.1 + 0.2` as Python prints it:
`str(0.1 + 0.2) == "0.30000000000000004"`, hence
`Decimal(str(0.1 + 0.2))` has mantissa `30000000000000004` and exponent 17. -/
def pySum_0_1_0_2 : Dec :=
  { man := 30000000000000004, exp := 17 }

/-! ## Position store (`src/engine/position_store.py`)

Calendar days (`YYYYMMDD` strings in the code) are modelled as naturals; an
8-digit decimal string satisfies `len == 8` iff the natural lies in
`[10^7, 10^8)`, and for two such strings Python's lexicographic `>=` agrees
with the numeric `≥`.  Symbols are modelled already normalized
(`.strip().upper()`). -/

/-- One entry of the `positions` map.  A fresh `setdefault(symbol, {})` entry
has every field absent; `qty` is read back with `.get("qty", 0) or 0`. -/
structure Position where
  open_date : Option Nat
  open_date_source : Option String
  qty : Int
  exchange : Option String
deriving Repr, DecidableEq

/-- The persisted store file: the `positions` map and the
`meta["missing_counts"]` map, both as association lists keyed by symbol. -/
structure StoreData where
  positions : List (String × Position)
  missing_counts : List (String × Nat)
deriving Repr, DecidableEq

/-- Dictionary lookup on an association list. -/
def alistGet {α : Type} : List (String × α) → String → Option α
  | [], _ => none
  | p :: rest, k => if p.1 = k then some p.2 else alistGet rest k

/-- Dictionary update/insert on an association list: replace the binding in
place when the key exists, append otherwise (dict assignment semantics). -/
def alistPut {α : Type} : List (String × α) → String → α → List (String × α)
  | [], k, v => [(k, v)]
  | p :: rest, k, v => if p.1 = k then (k, v) :: rest else p :: alistPut rest k v

/-- Dictionary key deletion on an association list. -/
def alistDel {α : Type} : List (String × α) → String → List (String × α)
  | [], _ => []
  | p :: rest, k => if p.1 = k then alistDel rest k else p :: alistDel rest k

/-- `len(str(d)) == 8` for a `YYYYMMDD` value. -/
def valid8 (d : Nat) : Bool :=
  decide (10000000 ≤ d) && decide (d < 100000000)

/-- `PositionStore.clear_missing(symbol)`. -/
def clear_missing (st : StoreData) (symbol : String) : StoreData :=
  { st with missing_counts := alistDel st.missing_counts symbol }

/-- `PositionStore.mark_missing(symbol)`: increment the symbol's consecutive
absence counter and return the new count together with the new store. -/
def mark_missing (st : StoreData) (symbol : String) : Nat × StoreData :=
  let n := (alistGet st.missing_counts symbol).getD 0 + 1
  (n, { st with missing_counts := alistPut st.missing_counts symbol n })

/-- `PositionStore.get_missing_count(symbol)`. -/
def get_missing_count (st : StoreData) (symbol : String) : Nat :=
  (alistGet st.missing_counts symbol).getD 0

/-- `PositionStore.upsert(symbol, qty, exchange)` with `today` explicit.
`qty ≤ 0` deletes the entry; a new symbol is created with
`open_date = today, open_date_source = "detect"`; a quantity increase resets
the open date to today unless the stored source is `"api"`; every branch
clears the missing counter. -/
def upsert (today : Nat) (st : StoreData) (symbol : String) (qty : Int)
    (exchange : Option String) : StoreData :=
  if qty ≤ 0 then
    clear_missing { st with positions := alistDel st.positions symbol } symbol
  else
    match alistGet st.positions symbol with
    | none =>
      let p : Position :=
        { open_date := some today, open_date_source := some "detect",
          qty := qty, exchange := exchange }
      clear_missing { st with positions := alistPut st.positions symbol p } symbol
    | some p0 =>
      let p1 :=
        if p0.qty < qty ∧ (p0.open_date_source.getD "detect") ≠ "api" then
          { p0 with open_date := some today, open_date_source := some "detect" }
        else p0
      let newex := match exchange with
                   | some e => some e
                   | none => p1.exchange
      let p2 := { p1 with qty := qty, exchange := newex }
      clear_missing { st with positions := alistPut st.positions symbol p2 } symbol

/-- The date-compare guard shared by both branches of `set_open_date`:
`(not cur_date) or (len(cur_date) != 8) or (new_date >= cur_date)`. -/
def dateOverwriteOK (new_date : Nat) (cur_date : Option Nat) : Bool :=
  match cur_date with
  | none => true
  | some c => !(valid8 c) || decide (c ≤ new_date)

/-- `PositionStore.set_open_date(symbol, open_date, source)`.  Rejects a date
that is not 8 digits; `setdefault` creates an empty entry; an `"api"` update
over a non-`"api"` entry, and any other update, both apply only when the new
date is `≥` the stored one (or no valid date is stored). -/
def set_open_date (st : StoreData) (symbol : String) (open_date : Nat)
    (source : String) : StoreData :=
  if !(valid8 open_date) then st
  else
    let p := (alistGet st.positions symbol).getD
      { open_date := none, open_date_source := none, qty := 0, exchange := none }
    let cur_source := p.open_date_source.getD "detect"
    if source = "api" ∧ cur_source ≠ "api" then
      if dateOverwriteOK open_date p.open_date then
        let p2 := { p with open_date := some open_date, open_date_source := some "api" }
        { st with positions := alistPut st.positions symbol p2 }
      else
        { st with positions := alistPut st.positions symbol p }
    else
      if dateOverwriteOK open_date p.open_date then
        let p2 := { p with open_date := some open_date, open_date_source := some source }
        { st with positions := alistPut st.positions symbol p2 }
      else
        { st with positions := alistPut st.positions symbol p }

/-- One iteration of the balance-snapshot sweep of `_run_core` (engine.py):
`if sym not in my_stocks: miss = store.mark_missing(sym); if miss >= 2: store.upsert(sym, 0)`. -/
def sweep_step (today : Nat) (present : List String) (acc : StoreData)
    (sym : String) : StoreData :=
  if present.contains sym then acc
  else
    let r := mark_missing acc sym
    if 2 ≤ r.1 then upsert today r.2 sym 0 none else r.2

/-- The balance-snapshot sweep of `_run_core` (engine.py):
`for sym in store.all_symbols(): ...` — fold `sweep_step` over the snapshot of
tracked keys taken before the loop body mutates the store. -/
def sweep_missing (today : Nat) (st : StoreData) (present : List String) :
    StoreData :=
  (st.positions.map Prod.fst).foldl (sweep_step today present) st

/-! ## Schedule gate and run-day marker (`src/engine/engine.py` + `run_state_store.py`)

`RunStateStore` persists `{"last_scheduled_run_day": "YYYYMMDD"}` in
`data/run_state_{mode}.json`; the file survives process restarts, so the
marker is modelled as state threaded through every attempt.  A scheduled
(`ignore_auto_enabled = False`) call of `_run_core` first checks auto-trading,
the ±1-minute schedule window, and the persisted marker, and only marks the
day after token wait, market-hours gate, balance snapshot and analysis fetch
all succeeded. -/

/-- Persisted run-state file content for one mode. -/
structure RunDayState where
  last_scheduled_run_day : Option Nat
deriving Repr, DecidableEq

/-- Environment of one scheduled cycle attempt: configuration, clock, and
whether the pre-marking steps (token readiness, market open, balance snapshot,
analysis reception) would all succeed in this attempt. -/
structure SchedEnv where
  auto_enabled : Bool
  in_schedule_window : Bool
  today : Nat
  core_reaches_marking : Bool
deriving Repr, DecidableEq

/-- Outcome of one scheduled attempt: whether control passed the schedule
gate (reached `self.is_running = True`), whether the run-day marker was
written this attempt, and the resulting persisted state. -/
structure SchedOutcome where
  passed_gate : Bool
  marked : Bool
  st : RunDayState
deriving Repr, DecidableEq

/-- One scheduled (non-manual) `_run_core` attempt, projected onto the
schedule gate and the run-day marker.  When the core fails before the marking
step the persisted state is left unchanged. -/
def scheduled_attempt (st : RunDayState) (env : SchedEnv) : SchedOutcome :=
  if !env.auto_enabled then { passed_gate := false, marked := false, st := st }
  else if !env.in_schedule_window then { passed_gate := false, marked := false, st := st }
  else if st.last_scheduled_run_day = some env.today then
    { passed_gate := false, marked := false, st := st }
  else if env.core_reaches_marking then
    { passed_gate := true, marked := true,
      st := { last_scheduled_run_day := some env.today } }
  else
    { passed_gate := true, marked := false, st := st }

/-- A sequence of scheduled attempts (possibly separated by process restarts:
the persisted state is the only carried-over information). -/
def run_attempts (st : RunDayState) : List SchedEnv → List SchedOutcome
  | [] => []
  | e :: es =>
    let o := scheduled_attempt st e
    o :: run_attempts o.st es

/-! ## Ask-ladder buy (`src/engine/engine.py`, `_buy_with_ask_ladder`) -/

/-- Externally visible buy-side actions taken for one candidate symbol inside
one cycle: ladder limit orders, residual-cancellation attempts, and the
slippage-fallback limit order. -/
inductive BuyEvent
  | order_submitted (level : Nat) (qty : Nat) (price : ℚ)
  | cancel_attempt (level : Nat) (ok : Bool)
  | fallback_order (qty : Nat) (price : ℚ)
deriving Repr, DecidableEq

/-- Termination reason of `_buy_with_ask_ladder` (its returned string). -/
inductive LadderReason
  | ask_api_failed
  | asks_empty
  | guard_triggered
  | qty_insufficient
  | order_no_missing
  | filled_or_removed
  | unfilled_left_last_level
  | cancel_failed
  | unfilled_remaining
deriving Repr, DecidableEq

/-- `_buy_with_ask_ladder` result: success flag, reason, and the trace of
orders/cancellations it performed. -/
structure LadderResult where
  ok : Bool
  reason : LadderReason
  events : List BuyEvent
deriving Repr, DecidableEq

/-- Broker responses consumed at one ladder level: the re-queried buyable
quantity (`None` when the v1_014 fields are absent/unparsable), the order
number returned by the submission (`None` = failure), the residual quantity
reported after the settle wait, and the cancellation outcome. -/
structure LevelEnv where
  max_ps_qty2 : Option Nat
  odno : Option String
  unfilled_qty : Nat
  cancel_ok : Bool
deriving Repr

/-- The `for level_idx in range(used_levels)` loop of `_buy_with_ask_ladder`,
recursing over the remaining level indices.  At each level: premium-ceiling
guard, buyable re-query capping `remaining`, order submission, settle wait and
unfilled check; full fill succeeds, an unfilled residue on the last level is
left resting, otherwise the residue is cancelled and the next level is tried —
unless the cancellation fails, which aborts everything. -/
def run_ladder_levels (asks : List ℚ) (envAt : Nat → LevelEnv) (max_price : ℚ) :
    List Nat → Nat → LadderResult
  | [], _ => { ok := false, reason := .unfilled_remaining, events := [] }
  | i :: rest, remaining =>
    let ask := asks.getD i 0
    if max_price > 0 ∧ ask > max_price then
      { ok := false, reason := .guard_triggered, events := [] }
    else
      let env := envAt i
      let rem1 := match env.max_ps_qty2 with
                  | some m => min remaining m
                  | none => remaining
      if rem1 = 0 then
        { ok := false, reason := .qty_insufficient, events := [] }
      else
        let ev := BuyEvent.order_submitted (i + 1) rem1 ask
        match env.odno with
        | none => { ok := false, reason := .order_no_missing, events := [ev] }
        | some _ =>
          if env.unfilled_qty = 0 then
            { ok := true, reason := .filled_or_removed, events := [ev] }
          else if rest = [] then
            { ok := false, reason := .unfilled_left_last_level, events := [ev] }
          else
            let cev := BuyEvent.cancel_attempt (i + 1) env.cancel_ok
            if env.cancel_ok then
              let r := run_ladder_levels asks envAt max_price rest env.unfilled_qty
              { ok := r.ok, reason := r.reason, events := ev :: cev :: r.events }
            else
              { ok := false, reason := .cancel_failed, events := [ev, cev] }

/-- Broker responses consumed by one whole `_buy_with_ask_ladder` call:
whether `get_asking_price` returned a payload, the ask prices extracted from
it, and the per-level responses. -/
structure LadderEnv where
  orderbook_ok : Bool
  asks : List ℚ
  levelAt : Nat → LevelEnv

/-- `_buy_with_ask_ladder()`: order-book query, ask extraction, premium
ceiling `current_price * (1 + max_premium_pct/100)`, and the level loop over
`used_levels = max(1, min(limit_buy_max_levels, len(asks)))` levels. -/
def buy_with_ask_ladder (env : LadderEnv) (current_price : ℚ)
    (limit_buy_max_premium_pct : ℚ) (limit_buy_max_levels : Nat) (qty : Nat) :
    LadderResult :=
  if !env.orderbook_ok then
    { ok := false, reason := .ask_api_failed, events := [] }
  else if env.asks = [] then
    { ok := false, reason := .asks_empty, events := [] }
  else
    let max_price := if current_price > 0 then
                       current_price * (1 + limit_buy_max_premium_pct / 100)
                     else 0
    let used := max 1 (min limit_buy_max_levels env.asks.length)
    run_ladder_levels env.asks env.levelAt max_price (List.range used) qty

/-- The real-mode ladder dispatch in `_run_core` (the `qty > 0` branch with
`buy_order_method == "limit_ask_ladder"`): run the ladder; when it reports
`ask_api_failed` or `asks_empty` submit a single slippage-adjusted fallback
limit order at `current_price * (1 + slippage_pct/100)`; for every other
failure record a skip and place no further order. -/
def real_ladder_buy (env : LadderEnv) (current_price : ℚ)
    (limit_buy_max_premium_pct : ℚ) (limit_buy_max_levels : Nat) (qty : Nat)
    (slippage_pct : ℚ) : List BuyEvent :=
  let r := buy_with_ask_ladder env current_price limit_buy_max_premium_pct
             limit_buy_max_levels qty
  if !r.ok ∧ (r.reason = .ask_api_failed ∨ r.reason = .asks_empty) then
    r.events ++ [BuyEvent.fallback_order qty (current_price * (1 + slippage_pct / 100))]
  else
    r.events

/-- Is this event an order submission (ladder level or fallback)? -/
def isOrderEvent : BuyEvent → Bool
  | .order_submitted _ _ _ => true
  | .fallback_order _ _ => true
  | .cancel_attempt _ _ => false

/-- Is this event a failed residual cancellation? -/
def isFailedCancel : BuyEvent → Bool
  | .cancel_attempt _ ok => !ok
  | _ => false

/-- Is this event the slippage fallback order? -/
def isFallbackOrder : BuyEvent → Bool
  | .fallback_order _ _ => true
  | _ => false

/-- Does some order submission occur strictly after a failed cancellation in
this event trace? -/
def orderAfterFailedCancel : List BuyEvent → Bool
  | [] => false
  | e :: rest =>
    if isFailedCancel e then rest.any isOrderEvent
    else orderAfterFailedCancel rest

/-! ## Cycle status and FX policy (`src/engine/engine.py`, `_run_core`) -/

/-- The `status` field of an execution-history record. -/
inductive Status
  | success
  | partialStatus
  | no_trade
  | error
  | unknown
deriving Repr, DecidableEq

/-- One entry of `history["buy_attempts"]` / `history["sell_attempts"]`,
projected onto its `ok` flag (all the finalization logic reads). -/
structure Attempt where
  ok : Bool
deriving Repr, DecidableEq

/-- The parts of the `history` record that determine the final status. -/
structure RunHistory where
  sell_attempts : List Attempt
  buy_attempts : List Attempt
  skips : List String
  errors : List String
  status : Status
  message : Option String
deriving Repr, DecidableEq

/-- The status summary computed at the end of the cycle body:
`success` when some buy or sell attempt has `ok`, else `partial` when any of
the four lists is non-empty, else `no_trade`. -/
def finalize_status (h : RunHistory) : Status :=
  if h.buy_attempts.any (fun a => a.ok) || h.sell_attempts.any (fun a => a.ok) then
    .success
  else if !h.buy_attempts.isEmpty || !h.sell_attempts.isEmpty
      || !h.skips.isEmpty || !h.errors.isEmpty then
    .partialStatus
  else
    .no_trade

/-- How the cycle body ended: it either ran to the status-summary lines, or an
exception escaped to the `except` clause, in both cases carrying the history
accumulated so far. -/
inductive CycleExit
  | normal (h : RunHistory)
  | raised (h : RunHistory)

/-- The final state produced by the `try/except/finally` tail of `_run_core`:
the history record, whether it was appended to the `ExecutionHistoryStore`,
and the `is_running` guard flag. -/
structure FinalRecord where
  history : RunHistory
  persisted : Bool
  is_running : Bool

/-- Lines 1922–1959 of `_run_core`: a normal exit computes the status summary
and keeps/sets the message; an escaped exception sets `status = "error"` and
records the exception; the `finally` block always appends the record and
clears the guard flag. -/
def finalize_run (e : CycleExit) : FinalRecord :=
  match e with
  | .normal h =>
    let h2 := { h with status := finalize_status h, message := some (h.message.getD "ok") }
    { history := h2, persisted := true, is_running := false }
  | .raised h =>
    let h2 := { h with status := .error, errors := h.errors ++ ["exception"], message := some "exception" }
    { history := h2, persisted := true, is_running := false }

/-- Result of the buy section when buying is allowed and candidates exist
(price lookups, sizing, order submissions): the attempts, skips and errors it
appends.  Its internals are irrelevant to the FX-unavailable policy. -/
structure BuyPhaseResult where
  attempts : List Attempt
  skips : List String
  errors : List String

/-- Environment of one cycle for the FX policy: the resolved USD/KRW rate
(`0`/negative = unresolved), what the sell scan produces (the scan never
consults the FX rate), the analysis buy list, and what the buy section would
produce were it allowed to run. -/
structure CycleEnv where
  usd_krw_rate : ℚ
  sell_attempts : List Attempt
  sell_skips : List String
  buy_list : List String
  buy_phase : List String → BuyPhaseResult

/-- `_run_core` from FX resolution to the status summary, for a cycle that
passed the market-hours and balance gates.  An unresolved rate appends an
`fx_rate_unavailable` error and clears `allow_buy`; sells run unconditionally;
with a non-empty buy list but `allow_buy` unset the cycle returns early with
`partial`/`no_trade` by the presence of sell attempts; otherwise the status
summary of the normal path applies. -/
def run_cycle (env : CycleEnv) : RunHistory :=
  let allow_buy := decide (0 < env.usd_krw_rate)
  let errors0 : List String :=
    if allow_buy then [] else ["fx_rate_unavailable"]
  let h0 : RunHistory :=
    { sell_attempts := env.sell_attempts, buy_attempts := [],
      skips := env.sell_skips, errors := errors0,
      status := .unknown, message := none }
  if env.buy_list = [] then
    { h0 with status := finalize_status h0, message := some "ok" }
  else if !allow_buy then
    let s1 : Status := if h0.sell_attempts = [] then .no_trade else .partialStatus
    { h0 with status := s1, message := some "buy_skipped_fx_rate_unavailable" }
  else
    let b := env.buy_phase env.buy_list
    let h1 := { h0 with buy_attempts := b.attempts, skips := h0.skips ++ b.skips, errors := h0.errors ++ b.errors }
    { h1 with status := finalize_status h1, message := some "ok" }

/-! ## Helper lemmas -/

theorem alistGet_put_self {α : Type} (l : List (String × α)) (k : String) (v : α) :
    alistGet (alistPut l k v) k = some v := by
  induction l with
  | nil => simp [alistPut, alistGet]
  | cons p rest ih =>
    by_cases h : p.1 = k <;> simp [alistPut, alistGet, h, ih]

theorem alistGet_put_other {α : Type} (l : List (String × α)) (k k2 : String) (v : α)
    (h : k2 ≠ k) : alistGet (alistPut l k v) k2 = alistGet l k2 := by
  have hk : k ≠ k2 := fun hh => h hh.symm
  induction l with
  | nil => simp [alistPut, alistGet, hk]
  | cons p rest ih =>
    by_cases hp : p.1 = k
    · simp [alistPut, alistGet, hp, hk]
    · simp [alistPut, alistGet, hp, ih]

theorem alistGet_del_self {α : Type} (l : List (String × α)) (k : String) :
    alistGet (alistDel l k) k = none := by
  induction l with
  | nil => simp [alistDel, alistGet]
  | cons p rest ih =>
    by_cases hp : p.1 = k <;> simp [alistDel, alistGet, hp, ih]

theorem alistGet_del_other {α : Type} (l : List (String × α)) (k k2 : String)
    (h : k2 ≠ k) : alistGet (alistDel l k) k2 = alistGet l k2 := by
  induction l with
  | nil => simp [alistDel, alistGet]
  | cons p rest ih =>
    by_cases hp : p.1 = k
    · have hk : k ≠ k2 := fun hh => h hh.symm
      simp [alistDel, alistGet, hp, ih, hk]
    · simp [alistDel, alistGet, hp, ih]

theorem alistGet_mem_keys {α : Type} (l : List (String × α)) (k : String) (v : α)
    (h : alistGet l k = some v) : k ∈ l.map Prod.fst := by
  induction l with
  | nil => simp [alistGet] at h
  | cons p rest ih =>
    by_cases hp : p.1 = k
    · simp [hp.symm]
    · simp [alistGet, hp] at h
      simp [ih h]

theorem alistDel_keys_sublist {α : Type} (l : List (String × α)) (k : String) :
    ((alistDel l k).map Prod.fst).Sublist (l.map Prod.fst) := by
  induction l with
  | nil => simp [alistDel]
  | cons p rest ih =>
    by_cases hp : p.1 = k
    · simpa [alistDel, hp] using ih.trans (List.sublist_cons_self _ _)
    · simpa [alistDel, hp] using ih.cons₂ p.1

/-! ## C3 — token cache validity -/

/-- C3: with a token and expiry stored, `get_token` serves the cached token
exactly when `now < expired_at - 60`, and whenever it serves from the cache
the returned value is that token and the freshness bound holds at the moment
of return. -/
theorem C3_get_token_cache_iff_fresh (t : String) (e now : Int) (cd : Bool)
    (issue : Option String) :
    ((get_token (some { token := some t, expired_at := some e }) now cd issue).from_cache = true
        ↔ now < e - 60)
    ∧ ((get_token (some { token := some t, expired_at := some e }) now cd issue).from_cache = true →
        (get_token (some { token := some t, expired_at := some e }) now cd issue).result = some t
        ∧ now < e - 60) := by
  by_cases hv : now < e - 60 <;>
    cases cd <;> simp [get_token, is_token_valid, hv, Option.bind]

/-- C3 witness: a concrete fresh cached token is served from the cache. -/
theorem C3_witness :
    (get_token (some { token := some "tok", expired_at := some 1000 }) 0 false none).result
      = some "tok" := by
  have h := C3_get_token_cache_iff_fresh "tok" 1000 0 false none
  exact (h.2 (h.1.mpr (by norm_num))).1

/-! ## C9 — invalidate_token frame -/

/-- C9: `invalidate_token(mode)` clears the cached token and expiry of that
mode and leaves both persisted metadata files — in particular the
`next_issue_at` cooldown gate — untouched, so a pending cooldown still gates
the next issuance attempt. -/
theorem C9_invalidate_token_frame (s : AuthState) (m : Mode) (now : Int) :
    (invalidate_token s m).cacheOf m = { token := none, expired_at := none }
    ∧ (∀ m2 : Mode, (invalidate_token s m).metaOf m2 = s.metaOf m2)
    ∧ is_in_issue_cooldown ((invalidate_token s m).metaOf m) now
        = is_in_issue_cooldown (s.metaOf m) now := by
  cases m <;>
    exact ⟨rfl, fun m2 => by cases m2 <;> rfl, rfl⟩

/-! ## C2 — schedule gate and run-day marker -/

theorem scheduled_attempt_cases (st : RunDayState) (e : SchedEnv) :
    scheduled_attempt st e = { passed_gate := false, marked := false, st := st }
    ∨ (st.last_scheduled_run_day ≠ some e.today
       ∧ (scheduled_attempt st e
            = { passed_gate := true, marked := true,
                st := { last_scheduled_run_day := some e.today } }
          ∨ scheduled_attempt st e = { passed_gate := true, marked := false, st := st })) := by
  unfold scheduled_attempt
  split
  next => exact Or.inl rfl
  next =>
    split
    next => exact Or.inl rfl
    next =>
      split
      next => exact Or.inl rfl
      next h3 =>
        split
        next => exact Or.inr ⟨h3, Or.inl rfl⟩
        next => exact Or.inr ⟨h3, Or.inr rfl⟩

theorem scheduled_attempt_closed_gate (st : RunDayState) (e : SchedEnv)
    (h : st.last_scheduled_run_day = some e.today) :
    scheduled_attempt st e = { passed_gate := false, marked := false, st := st } := by
  rcases scheduled_attempt_cases st e with hc | ⟨hne, _⟩
  · exact hc
  · exact absurd h hne

theorem scheduled_attempt_marked_st (st : RunDayState) (e : SchedEnv)
    (h : (scheduled_attempt st e).marked = true) :
    (scheduled_attempt st e).st = { last_scheduled_run_day := some e.today } := by
  rcases scheduled_attempt_cases st e with hc | ⟨-, hc | hc⟩
  · rw [hc] at h; simp at h
  · rw [hc]
  · rw [hc] at h; simp at h

theorem scheduled_attempt_unmarked_st (st : RunDayState) (e : SchedEnv)
    (h : (scheduled_attempt st e).marked = false) :
    (scheduled_attempt st e).st = st := by
  rcases scheduled_attempt_cases st e with hc | ⟨-, hc | hc⟩
  · rw [hc]
  · rw [hc] at h; simp at h
  · rw [hc]

theorem run_attempts_closed_of_marked (st : RunDayState) (d : Nat) :
    ∀ envs : List SchedEnv, (∀ e ∈ envs, e.today = d) →
      st.last_scheduled_run_day = some d →
      ∀ o ∈ run_attempts st envs, o.passed_gate = false ∧ o.marked = false := by
  intro envs
  induction envs generalizing st with
  | nil => simp [run_attempts]
  | cons e es ih =>
    intro hall hst o ho
    have he : e.today = d := hall e (by simp)
    have hgate : scheduled_attempt st e = { passed_gate := false, marked := false, st := st } :=
      scheduled_attempt_closed_gate st e (by rw [he]; exact hst)
    rw [run_attempts, hgate] at ho
    rcases List.mem_cons.mp ho with h1 | h2
    · simp [h1]
    · exact ih st (fun x hx => hall x (by simp [hx])) hst o h2

/-- C2 counterexample: with an unset marker and a scheduled attempt that fails
before the marking step (e.g. token-wait timeout), a second same-day attempt
passes the schedule gate again — two scheduled cycles of one calendar day
execute past the gate, contradicting the claim. -/
theorem C2_counterexample :
    (scheduled_attempt { last_scheduled_run_day := none }
        { auto_enabled := true, in_schedule_window := true, today := 20250101,
          core_reaches_marking := false }).passed_gate = true
    ∧ (scheduled_attempt
        (scheduled_attempt { last_scheduled_run_day := none }
          { auto_enabled := true, in_schedule_window := true, today := 20250101,
            core_reaches_marking := false }).st
        { auto_enabled := true, in_schedule_window := true, today := 20250101,
          core_reaches_marking := false }).passed_gate = true := by
  decide

/-- C2 (amended): across any sequence of scheduled attempts of one calendar
day — including across restarts, since the marker is the persisted state
threaded through the attempts — at most one attempt reaches the run-day
marking step; once one has, every later same-day attempt is stopped at the
schedule gate.  (Attempts that fail before the marker is written do not
consume the day, so more than one attempt may pass the gate itself.) -/
theorem C2_amended_at_most_one_marked (st : RunDayState) (envs : List SchedEnv) (d : Nat)
    (h : ∀ e ∈ envs, e.today = d) :
    ((run_attempts st envs).filter (fun o => o.marked)).length ≤ 1 := by
  induction envs generalizing st with
  | nil => simp [run_attempts]
  | cons e es ih =>
    have he : e.today = d := h e (by simp)
    have hes : ∀ x ∈ es, x.today = d := fun x hx => h x (by simp [hx])
    rw [run_attempts]
    by_cases hm : (scheduled_attempt st e).marked = true
    · have hst : (scheduled_attempt st e).st = { last_scheduled_run_day := some e.today } :=
        scheduled_attempt_marked_st st e hm
      have hclosed := run_attempts_closed_of_marked (scheduled_attempt st e).st d es hes
        (by rw [hst, he])
      have hnil : (run_attempts (scheduled_attempt st e).st es).filter (fun o => o.marked) = [] := by
        apply List.filter_eq_nil_iff.mpr
        intro o ho
        simp [(hclosed o ho).2]
      simp [List.filter, hm, hnil]
    · have hm2 : (scheduled_attempt st e).marked = false := by
        revert hm
        cases (scheduled_attempt st e).marked <;> simp
      have hst : (scheduled_attempt st e).st = st := scheduled_attempt_unmarked_st st e hm2
      rw [hst]
      simpa [List.filter, hm2] using ih st hes

/-- C2 witness: the amended bound, instantiated on a concrete two-attempt day
(first attempt marks, second is gate-blocked). -/
theorem C2_witness :
    ((run_attempts { last_scheduled_run_day := none }
        [{ auto_enabled := true, in_schedule_window := true, today := 20250101,
           core_reaches_marking := true },
         { auto_enabled := true, in_schedule_window := true, today := 20250101,
           core_reaches_marking := true }]).filter (fun o => o.marked)).length ≤ 1 :=
  C2_amended_at_most_one_marked { last_scheduled_run_day := none } _ 20250101 (by decide)

/-! ## C6 — FX-unavailable policy -/

/-- C6 counterexample: with rate 0, an empty analysis buy list and one
successful sell, the early sell-only return is never reached (it sits inside
the non-empty-buy-list branch), the normal status summary runs, and the final
status is `success` — not `partial` as the claim requires whenever a sell
attempt exists. -/
theorem C6_counterexample :
    (run_cycle { usd_krw_rate := 0, sell_attempts := [{ ok := true }], sell_skips := [],
                 buy_list := [], buy_phase := fun _ => ⟨[], [], []⟩ }).status = Status.success
    ∧ (run_cycle { usd_krw_rate := 0, sell_attempts := [{ ok := true }], sell_skips := [],
                   buy_list := [], buy_phase := fun _ => ⟨[], [], []⟩ }).sell_attempts ≠ []
    ∧ (run_cycle { usd_krw_rate := 0, sell_attempts := [{ ok := true }], sell_skips := [],
                   buy_list := [], buy_phase := fun _ => ⟨[], [], []⟩ }).buy_attempts = [] := by
  refine ⟨rfl, ?_, rfl⟩
  simp [run_cycle, finalize_status]

/-- C6 (amended): when the FX resolver yields no positive rate the cycle
performs zero buy attempts and the sell scan is unaffected; when the analysis
buy list is non-empty the run ends early with status `partial` if a sell
attempt exists and `no_trade` otherwise.  (With an empty buy list the normal
status summary applies instead, over a history that already carries the
recorded `fx_rate_unavailable` error.) -/
theorem C6_amended_fx_unavailable (env : CycleEnv) (h : env.usd_krw_rate ≤ 0) :
    (run_cycle env).buy_attempts = []
    ∧ (run_cycle env).sell_attempts = env.sell_attempts
    ∧ (env.buy_list ≠ [] →
        (run_cycle env).status
          = (if env.sell_attempts = [] then Status.no_trade else Status.partialStatus)) := by
  have hr : decide (0 < env.usd_krw_rate) = false :=
    decide_eq_false (not_lt.mpr h)
  by_cases hb : env.buy_list = [] <;>
    simp [run_cycle, hr, hb]

/-- C6 witness: concrete degraded cycle — rate 0, one buy candidate, one sell
attempt — ends with zero buy attempts and status `partial`. -/
theorem C6_witness :
    (run_cycle { usd_krw_rate := 0, sell_attempts := [{ ok := false }], sell_skips := [],
                 buy_list := ["TSLA"], buy_phase := fun _ => ⟨[], [], []⟩ }).buy_attempts = []
    ∧ (run_cycle { usd_krw_rate := 0, sell_attempts := [{ ok := false }], sell_skips := [],
                   buy_list := ["TSLA"], buy_phase := fun _ => ⟨[], [], []⟩ }).status
        = Status.partialStatus := by
  have h := C6_amended_fx_unavailable
    { usd_krw_rate := 0, sell_attempts := [{ ok := false }], sell_skips := [],
      buy_list := ["TSLA"], buy_phase := fun _ => ⟨[], [], []⟩ } (by norm_num)
  exact ⟨h.1, by simpa using h.2.2 (by simp)⟩

/-! ## C7 — cycle finalization -/

/-- C7: at cycle finalization the status is `success` iff some buy or sell
attempt succeeded, `partial` iff none succeeded but attempts/skips/errors
exist, `no_trade` iff all four lists are empty, and `error` when an exception
escaped the cycle body; in every case the run record is persisted and the
running guard flag is cleared. -/
theorem C7_finalize_status_and_persist (h : RunHistory) :
    ((finalize_run (CycleExit.normal h)).history.status = Status.success
        ↔ (h.buy_attempts.any (fun a => a.ok) = true
           ∨ h.sell_attempts.any (fun a => a.ok) = true))
    ∧ ((finalize_run (CycleExit.normal h)).history.status = Status.partialStatus
        ↔ (¬(h.buy_attempts.any (fun a => a.ok) = true
             ∨ h.sell_attempts.any (fun a => a.ok) = true)
           ∧ (h.buy_attempts ≠ [] ∨ h.sell_attempts ≠ [] ∨ h.skips ≠ [] ∨ h.errors ≠ [])))
    ∧ ((finalize_run (CycleExit.normal h)).history.status = Status.no_trade
        ↔ (h.buy_attempts = [] ∧ h.sell_attempts = [] ∧ h.skips = [] ∧ h.errors = []))
    ∧ (finalize_run (CycleExit.raised h)).history.status = Status.error
    ∧ (∀ e : CycleExit, (finalize_run e).persisted = true ∧ (finalize_run e).is_running = false) := by
  refine ⟨?_, ?_, ?_, rfl, fun e => by cases e <;> exact ⟨rfl, rfl⟩⟩ <;>
    (cases hA : h.buy_attempts.any (fun a => a.ok) <;>
     cases hB : h.sell_attempts.any (fun a => a.ok) <;>
     cases hC : h.buy_attempts.isEmpty <;>
     cases hD : h.sell_attempts.isEmpty <;>
     cases hE : h.skips.isEmpty <;>
     cases hF : h.errors.isEmpty <;>
     simp_all [finalize_run, finalize_status]) <;>
    (split <;> simp)

/-! ## Position-store lemmas, C10 and C5 -/

theorem clear_missing_positions (st : StoreData) (s : String) :
    (clear_missing st s).positions = st.positions := rfl

theorem get_missing_count_clear (st : StoreData) (s : String) :
    get_missing_count (clear_missing st s) s = 0 := by
  simp [get_missing_count, clear_missing, alistGet_del_self]

theorem upsert_clears_missing (t : Nat) (st : StoreData) (s : String) (q : Int)
    (ex : Option String) : get_missing_count (upsert t st s q ex) s = 0 := by
  unfold upsert
  split
  · exact get_missing_count_clear _ _
  · split <;> exact get_missing_count_clear _ _

/-- C10: on an `upsert` whose quantity strictly exceeds the stored quantity,
a position whose source is not `"api"` has its open date reset to today with
source `"detect"`, while an `"api"`-sourced position keeps its open date and
source unchanged (only quantity/exchange are refreshed). -/
theorem C10_upsert_quantity_increase (st : StoreData) (sym : String) (p : Position)
    (q : Int) (today : Nat) (ex : Option String)
    (hp : alistGet st.positions sym = some p)
    (hq : p.qty < q) (hq0 : 0 < q) :
    ((p.open_date_source.getD "detect") ≠ "api" →
      alistGet (upsert today st sym q ex).positions sym
        = some { open_date := some today, open_date_source := some "detect", qty := q,
                 exchange := (match ex with | some e => some e | none => p.exchange) })
    ∧ ((p.open_date_source.getD "detect") = "api" →
      alistGet (upsert today st sym q ex).positions sym
        = some { open_date := p.open_date, open_date_source := p.open_date_source, qty := q,
                 exchange := (match ex with | some e => some e | none => p.exchange) }) := by
  have hq0n : ¬(q ≤ 0) := not_le.mpr hq0
  constructor <;> intro hsrc <;>
    simp [upsert, hp, hq0n, hq, hsrc, clear_missing, alistGet_put_self]

/-- C10 witness: a concrete quantity increase on a detect-sourced position
resets the open date to today. -/
theorem C10_witness :
    alistGet (upsert 20250203
        { positions := [("TSLA", { open_date := some 20250101,
                                   open_date_source := some "detect", qty := 1,
                                   exchange := some "NASD" })],
          missing_counts := [] } "TSLA" 3 none).positions "TSLA"
      = some { open_date := some 20250203, open_date_source := some "detect", qty := 3,
               exchange := some "NASD" } := by
  exact (C10_upsert_quantity_increase
    { positions := [("TSLA", { open_date := some 20250101,
                               open_date_source := some "detect", qty := 1,
                               exchange := some "NASD" })],
      missing_counts := [] } "TSLA"
    { open_date := some 20250101, open_date_source := some "detect", qty := 1,
      exchange := some "NASD" } 3 20250203 none (by decide)
    (by decide) (by decide)).1 (by decide)

/-- C5 counterexample: a position detected on `20250102` receives an api
reconciliation date `20250101 ≤ 20250102`, yet `set_open_date` leaves the
record unchanged: source stays `"detect"` and the date stays `20250102` — the
claimed promotion (`source = "api"` with the api date) does not happen,
because the code only promotes when the api date is `≥` the stored one. -/
theorem C5_counterexample :
    20250101 ≤ 20250102
    ∧ alistGet (set_open_date
        { positions := [("TSLA", { open_date := some 20250102,
                                   open_date_source := some "detect", qty := 1,
                                   exchange := none })],
          missing_counts := [] } "TSLA" 20250101 "api").positions "TSLA"
      = some { open_date := some 20250102, open_date_source := some "detect", qty := 1,
               exchange := none } := by
  exact ⟨by norm_num, by decide⟩

/-- C5 (amended): a symbol first seen in a balance snapshot with `qty > 0` is
stored with `open_date = today` and source `"detect"`; a later api
reconciliation promotes a non-api record to source `"api"` with the api date
exactly when that date is `≥` the currently stored (valid) date, and leaves
the record unchanged when the api date is strictly earlier; once the source is
`"api"`, a subsequent api date never regresses the stored open date (the
result is the maximum of the stored and the new date). -/
theorem C5_amended_open_date_lifecycle :
    (∀ (st : StoreData) (sym : String) (q : Int) (today : Nat) (ex : Option String),
      alistGet st.positions sym = none → 0 < q →
      alistGet (upsert today st sym q ex).positions sym
        = some { open_date := some today, open_date_source := some "detect", qty := q,
                 exchange := ex })
    ∧ (∀ (st : StoreData) (sym : String) (p : Position) (n c : Nat),
      alistGet st.positions sym = some p →
      (p.open_date_source.getD "detect") ≠ "api" →
      p.open_date = some c → valid8 n = true → valid8 c = true →
      ((c ≤ n →
        alistGet (set_open_date st sym n "api").positions sym
          = some { open_date := some n, open_date_source := some "api", qty := p.qty,
                   exchange := p.exchange })
       ∧ (n < c →
        alistGet (set_open_date st sym n "api").positions sym = some p)))
    ∧ (∀ (st : StoreData) (sym : String) (p : Position) (n c : Nat),
      alistGet st.positions sym = some p →
      p.open_date_source = some "api" →
      p.open_date = some c → valid8 n = true → valid8 c = true →
      alistGet (set_open_date st sym n "api").positions sym
        = some { open_date := some (max c n), open_date_source := some "api", qty := p.qty,
                 exchange := p.exchange }) := by
  refine ⟨?_, ?_, ?_⟩
  · intro st sym q today ex hnone hq0
    simp [upsert, hnone, not_le.mpr hq0, clear_missing, alistGet_put_self]
  · intro st sym p n c hp hsrc hdate hvn hvc
    constructor <;> intro hcmp
    · simp [set_open_date, hp, hsrc, hdate, hvn, hvc, dateOverwriteOK, hcmp,
        alistGet_put_self]
    · have hnot : ¬(c ≤ n) := not_le.mpr hcmp
      simp [set_open_date, hp, hsrc, hdate, hvn, hvc, dateOverwriteOK, hnot,
        alistGet_put_self]
  · intro st sym p n c hp hsrc hdate hvn hvc
    by_cases hcmp : c ≤ n
    · have hm : max c n = n := max_eq_right hcmp
      simp [set_open_date, hp, hsrc, hdate, hvn, hvc, dateOverwriteOK, hcmp, hm,
        alistGet_put_self]
    · have hm : max c n = c := max_eq_left (le_of_not_le hcmp)
      obtain ⟨d1, d2, d3, d4⟩ := p
      simp only [Option.some.injEq] at hdate
      subst hsrc
      subst hdate
      simp [set_open_date, hp, hvn, hvc, dateOverwriteOK, hcmp, hm,
        alistGet_put_self]

/-- C5 witness: a fresh detect record, a promoting api update at an equal
date, and a non-regressing api update, on concrete stores. -/
theorem C5_witness :
    alistGet (upsert 20250102
        { positions := [], missing_counts := [] } "AAPL" 2 (some "NASD")).positions "AAPL"
      = some { open_date := some 20250102, open_date_source := some "detect", qty := 2,
               exchange := some "NASD" }
    ∧ alistGet (set_open_date
        { positions := [("AAPL", { open_date := some 20250102,
                                   open_date_source := some "detect", qty := 2,
                                   exchange := some "NASD" })],
          missing_counts := [] } "AAPL" 20250102 "api").positions "AAPL"
      = some { open_date := some 20250102, open_date_source := some "api", qty := 2,
               exchange := some "NASD" } := by
  constructor
  · exact C5_amended_open_date_lifecycle.1
      { positions := [], missing_counts := [] } "AAPL" 2 20250102 (some "NASD")
      (by decide) (by decide)
  · exact (C5_amended_open_date_lifecycle.2.1
      { positions := [("AAPL", { open_date := some 20250102,
                                 open_date_source := some "detect", qty := 2,
                                 exchange := some "NASD" })],
        missing_counts := [] } "AAPL"
      { open_date := some 20250102, open_date_source := some "detect", qty := 2,
        exchange := some "NASD" } 20250102 20250102
      (by decide) (by decide) (by decide) (by decide) (by decide)).1 (by decide)

/-! ## C8 — missing-symbol sweep -/

theorem sweep_step_frame (t : Nat) (pr : List String) (acc : StoreData)
    (sym sym2 : String) (h : sym ≠ sym2) :
    alistGet (sweep_step t pr acc sym2).positions sym = alistGet acc.positions sym
    ∧ get_missing_count (sweep_step t pr acc sym2) sym = get_missing_count acc sym := by
  unfold sweep_step
  dsimp only
  split
  · exact ⟨rfl, rfl⟩
  · split <;>
      simp [upsert, mark_missing, clear_missing, get_missing_count,
        alistGet_put_other, alistGet_del_other, h]

theorem sweep_fold_frame (t : Nat) (pr : List String) (sym : String) :
    ∀ (ks : List String) (acc : StoreData), (∀ k ∈ ks, k ≠ sym) →
      alistGet (ks.foldl (sweep_step t pr) acc).positions sym = alistGet acc.positions sym
      ∧ get_missing_count (ks.foldl (sweep_step t pr) acc) sym
          = get_missing_count acc sym := by
  intro ks
  induction ks with
  | nil => simp
  | cons k ks ih =>
    intro acc hk
    have hne : sym ≠ k := fun hh => hk k (by simp) hh.symm
    have h1 := sweep_step_frame t pr acc sym k hne
    have h2 := ih (sweep_step t pr acc k) (fun x hx => hk x (by simp [hx]))
    rw [List.foldl_cons]
    exact ⟨h2.1.trans h1.1, h2.2.trans h1.2⟩

theorem sweep_step_absent (t : Nat) (pr : List String) (acc : StoreData)
    (sym : String) (habs : pr.contains sym = false) :
    (get_missing_count acc sym = 0 →
      (sweep_step t pr acc sym).positions = acc.positions
      ∧ get_missing_count (sweep_step t pr acc sym) sym = 1)
    ∧ (get_missing_count acc sym = 1 →
      alistGet (sweep_step t pr acc sym).positions sym = none) := by
  have hc1 : ¬(pr.contains sym = true) := by simpa using habs
  unfold sweep_step
  dsimp only
  rw [if_neg hc1]
  constructor <;> intro hcnt <;> simp only [get_missing_count] at hcnt
  · have hm : (mark_missing acc sym).1 = 1 := by simp [mark_missing, hcnt]
    rw [if_neg (by rw [hm]; omega)]
    refine ⟨rfl, ?_⟩
    simp [mark_missing, get_missing_count, hcnt, alistGet_put_self]
  · have hm : (mark_missing acc sym).1 = 2 := by simp [mark_missing, hcnt]
    rw [if_pos (by rw [hm])]
    simp [upsert, clear_missing, alistGet_del_self]

theorem sweep_step_keys_sublist (t : Nat) (pr : List String) (acc : StoreData)
    (sym2 : String) :
    ((sweep_step t pr acc sym2).positions.map Prod.fst).Sublist
      (acc.positions.map Prod.fst) := by
  unfold sweep_step
  dsimp only
  split
  · exact List.Sublist.refl _
  · split <;>
      simp [upsert, mark_missing, clear_missing, alistDel_keys_sublist]

theorem sweep_fold_keys_sublist (t : Nat) (pr : List String) :
    ∀ (ks : List String) (acc : StoreData),
      ((ks.foldl (sweep_step t pr) acc).positions.map Prod.fst).Sublist
        (acc.positions.map Prod.fst) := by
  intro ks
  induction ks with
  | nil => simp
  | cons k ks ih =>
    intro acc
    rw [List.foldl_cons]
    exact (ih (sweep_step t pr acc k)).trans (sweep_step_keys_sublist t pr acc k)

theorem sweep_absent_once (t : Nat) (pr : List String) (st : StoreData) (sym : String)
    (hnodup : (st.positions.map Prod.fst).Nodup)
    (hmem : sym ∈ st.positions.map Prod.fst)
    (habs : pr.contains sym = false) :
    (get_missing_count st sym = 0 →
      alistGet (sweep_missing t st pr).positions sym = alistGet st.positions sym
      ∧ get_missing_count (sweep_missing t st pr) sym = 1)
    ∧ (get_missing_count st sym = 1 →
      alistGet (sweep_missing t st pr).positions sym = none) := by
  obtain ⟨l1, l2, hks⟩ := List.append_of_mem hmem
  have hnm : (sym :: (l1 ++ l2)).Nodup := by
    rw [← List.nodup_middle, ← hks]
    exact hnodup
  have hnotmem : sym ∉ l1 ++ l2 := (List.nodup_cons.mp hnm).1
  have h1 : ∀ k ∈ l1, k ≠ sym := by
    intro k hk he
    exact hnotmem (by subst he; simp [hk])
  have h2 : ∀ k ∈ l2, k ≠ sym := by
    intro k hk he
    exact hnotmem (by subst he; simp [hk])
  unfold sweep_missing
  rw [hks, List.foldl_append, List.foldl_cons]
  have hf1 := sweep_fold_frame t pr sym l1 st h1
  constructor <;> intro hcnt
  · have hstep := (sweep_step_absent t pr (l1.foldl (sweep_step t pr) st) sym habs).1
      (hf1.2.trans hcnt)
    have hf2 := sweep_fold_frame t pr sym l2
      (sweep_step t pr (l1.foldl (sweep_step t pr) st) sym) h2
    refine ⟨?_, ?_⟩
    · rw [hf2.1]
      rw [show alistGet (sweep_step t pr (l1.foldl (sweep_step t pr) st) sym).positions sym
            = alistGet (l1.foldl (sweep_step t pr) st).positions sym from by rw [hstep.1]]
      exact hf1.1
    · rw [hf2.2, hstep.2]
  · have hstep := (sweep_step_absent t pr (l1.foldl (sweep_step t pr) st) sym habs).2
      (hf1.2.trans hcnt)
    have hf2 := sweep_fold_frame t pr sym l2
      (sweep_step t pr (l1.foldl (sweep_step t pr) st) sym) h2
    rw [hf2.1, hstep]

/-- C8: a tracked position absent from the balance snapshot in two consecutive
cycles is removed by the sweep; after a single absent cycle it is retained
with absence count 1; and an `upsert` with positive quantity (the symbol
reappearing in a snapshot) resets the absence count to zero. -/
theorem C8_two_consecutive_absences (st : StoreData) (sym : String) (p : Position)
    (present1 present2 : List String) (t1 t2 : Nat)
    (hpos : alistGet st.positions sym = some p)
    (hnodup : (st.positions.map Prod.fst).Nodup)
    (hcnt : get_missing_count st sym = 0)
    (habs1 : present1.contains sym = false)
    (habs2 : present2.contains sym = false) :
    (alistGet (sweep_missing t1 st present1).positions sym = some p
     ∧ get_missing_count (sweep_missing t1 st present1) sym = 1)
    ∧ alistGet (sweep_missing t2 (sweep_missing t1 st present1) present2).positions sym
        = none
    ∧ (∀ (st3 : StoreData) (q : Int) (ex : Option String) (t3 : Nat), 0 < q →
        get_missing_count (upsert t3 st3 sym q ex) sym = 0) := by
  have hmem : sym ∈ st.positions.map Prod.fst := alistGet_mem_keys _ _ _ hpos
  have hsw1 := (sweep_absent_once t1 present1 st sym hnodup hmem habs1).1 hcnt
  have hpos1 : alistGet (sweep_missing t1 st present1).positions sym = some p :=
    hsw1.1.trans hpos
  have hnodup1 : ((sweep_missing t1 st present1).positions.map Prod.fst).Nodup :=
    (sweep_fold_keys_sublist t1 present1 (st.positions.map Prod.fst) st).nodup hnodup
  have hmem1 : sym ∈ (sweep_missing t1 st present1).positions.map Prod.fst :=
    alistGet_mem_keys _ _ _ hpos1
  refine ⟨⟨hpos1, hsw1.2⟩, ?_, fun st3 q ex t3 _ => upsert_clears_missing t3 st3 sym q ex⟩
  exact (sweep_absent_once t2 present2 (sweep_missing t1 st present1) sym hnodup1
    hmem1 habs2).2 hsw1.2

/-- C8 witness: a concrete store loses the symbol after two absent sweeps and
keeps it after one. -/
theorem C8_witness :
    (alistGet (sweep_missing 20250103
        { positions := [("TSLA", { open_date := some 20250101,
                                   open_date_source := some "detect", qty := 1,
                                   exchange := none })],
          missing_counts := [] } []).positions "TSLA"
      = some { open_date := some 20250101, open_date_source := some "detect", qty := 1,
               exchange := none })
    ∧ alistGet (sweep_missing 20250104 (sweep_missing 20250103
        { positions := [("TSLA", { open_date := some 20250101,
                                   open_date_source := some "detect", qty := 1,
                                   exchange := none })],
          missing_counts := [] } []) []).positions "TSLA" = none := by
  have h := C8_two_consecutive_absences
    { positions := [("TSLA", { open_date := some 20250101,
                               open_date_source := some "detect", qty := 1,
                               exchange := none })],
      missing_counts := [] } "TSLA"
    { open_date := some 20250101, open_date_source := some "detect", qty := 1,
      exchange := none } [] [] 20250103 20250104
    (by decide) (by decide) (by decide) (by decide) (by decide)
  exact ⟨h.1.1, h.2.1⟩

/-! ## C1 — ask-ladder order discipline -/

theorem ladder_oafc (asks : List ℚ) (envAt : Nat → LevelEnv) (mp : ℚ) :
    ∀ (idxs : List Nat) (rem : Nat),
      orderAfterFailedCancel (run_ladder_levels asks envAt mp idxs rem).events = false := by
  intro idxs
  induction idxs with
  | nil => intro rem; rfl
  | cons i rest ih =>
    intro rem
    rw [run_ladder_levels]
    dsimp only
    split
    next => rfl
    next =>
      split
      next => rfl
      next =>
        split
        next => rfl
        next =>
          split
          next => rfl
          next =>
            split
            next => rfl
            next =>
              split
              next hco => simp [orderAfterFailedCancel, isFailedCancel, hco, ih]
              next hco =>
                simp only [Bool.not_eq_true] at hco
                simp [orderAfterFailedCancel, isFailedCancel, isOrderEvent, hco]

theorem ladder_no_fallback (asks : List ℚ) (envAt : Nat → LevelEnv) (mp : ℚ) :
    ∀ (idxs : List Nat) (rem : Nat),
      (run_ladder_levels asks envAt mp idxs rem).events.countP isFallbackOrder = 0 := by
  intro idxs
  induction idxs with
  | nil => intro rem; rfl
  | cons i rest ih =>
    intro rem
    rw [run_ladder_levels]
    dsimp only
    split
    next => rfl
    next =>
      split
      next => rfl
      next =>
        split
        next => simp [List.countP, List.countP.go, isFallbackOrder]
        next =>
          split
          next => simp [List.countP, List.countP.go, isFallbackOrder]
          next =>
            split
            next => simp [List.countP, List.countP.go, isFallbackOrder]
            next =>
              split
              next hco =>
                simp [List.countP_cons, isFallbackOrder, ih]
              next hco => simp [List.countP, List.countP.go, isFallbackOrder]

theorem ladder_reason_not_pre (asks : List ℚ) (envAt : Nat → LevelEnv) (mp : ℚ) :
    ∀ (idxs : List Nat) (rem : Nat),
      (run_ladder_levels asks envAt mp idxs rem).reason ≠ LadderReason.ask_api_failed
      ∧ (run_ladder_levels asks envAt mp idxs rem).reason ≠ LadderReason.asks_empty := by
  intro idxs
  induction idxs with
  | nil => intro rem; exact ⟨by simp [run_ladder_levels], by simp [run_ladder_levels]⟩
  | cons i rest ih =>
    intro rem
    rw [run_ladder_levels]
    dsimp only
    split
    next => exact ⟨by simp, by simp⟩
    next =>
      split
      next => exact ⟨by simp, by simp⟩
      next =>
        split
        next => exact ⟨by simp, by simp⟩
        next =>
          split
          next => exact ⟨by simp, by simp⟩
          next =>
            split
            next => exact ⟨by simp, by simp⟩
            next =>
              split
              next hco => simpa using ih ((envAt i).unfilled_qty)
              next hco => exact ⟨by simp, by simp⟩

theorem buy_ladder_props (env : LadderEnv) (cp prem : ℚ) (lv qty : Nat) :
    orderAfterFailedCancel (buy_with_ask_ladder env cp prem lv qty).events = false
    ∧ (buy_with_ask_ladder env cp prem lv qty).events.countP isFallbackOrder = 0
    ∧ (((buy_with_ask_ladder env cp prem lv qty).reason = LadderReason.ask_api_failed
        ∨ (buy_with_ask_ladder env cp prem lv qty).reason = LadderReason.asks_empty) →
        (buy_with_ask_ladder env cp prem lv qty).events = []
        ∧ (buy_with_ask_ladder env cp prem lv qty).ok = false) := by
  unfold buy_with_ask_ladder
  dsimp only
  split
  next => exact ⟨rfl, rfl, fun _ => ⟨rfl, rfl⟩⟩
  next =>
    split
    next => exact ⟨rfl, rfl, fun _ => ⟨rfl, rfl⟩⟩
    next =>
      refine ⟨ladder_oafc _ _ _ _ _, ladder_no_fallback _ _ _ _ _, fun hpre => ?_⟩
      rcases hpre with hpre | hpre
      · exact absurd hpre (ladder_reason_not_pre _ _ _ _ _).1
      · exact absurd hpre (ladder_reason_not_pre _ _ _ _ _).2

/-- C1: in the real-mode ask-ladder buy, no buy order (ladder level or
fallback) is ever submitted after a residual-cancellation failure; at most one
slippage fallback order exists; and the fallback order is attempted exactly
when the ladder reported `ask_api_failed` or `asks_empty` — both of which
occur before any order has been placed (the ladder event list is empty). -/
theorem C1_ladder_safety (env : LadderEnv) (current_price premium slippage : ℚ)
    (levels qty : Nat) :
    orderAfterFailedCancel
        (real_ladder_buy env current_price premium levels qty slippage) = false
    ∧ (real_ladder_buy env current_price premium levels qty slippage).countP
        isFallbackOrder ≤ 1
    ∧ ((real_ladder_buy env current_price premium levels qty slippage).any
          isFallbackOrder = true
        ↔ ((buy_with_ask_ladder env current_price premium levels qty).reason
              = LadderReason.ask_api_failed
           ∨ (buy_with_ask_ladder env current_price premium levels qty).reason
              = LadderReason.asks_empty))
    ∧ ((real_ladder_buy env current_price premium levels qty slippage).any
          isFallbackOrder = true →
        (buy_with_ask_ladder env current_price premium levels qty).events = []) := by
  have hb := buy_ladder_props env current_price premium levels qty
  unfold real_ladder_buy
  dsimp only
  split
  next hcond =>
    obtain ⟨hev, hok⟩ := hb.2.2 hcond.2
    rw [hev]
    refine ⟨rfl, by simp [isFallbackOrder], ?_, fun _ => rfl⟩
    simp only [List.nil_append, List.any_cons, List.any_nil, isFallbackOrder]
    exact iff_of_true (by simp) hcond.2
  next hcond =>
    have hany : (buy_with_ask_ladder env current_price premium levels qty).events.any
        isFallbackOrder = false := by
      rw [← Bool.not_eq_true, List.any_eq_true]
      rintro ⟨x, hx, hfx⟩
      have := List.countP_eq_zero.mp hb.2.1 x hx
      simp [hfx] at this
    refine ⟨hb.1, by rw [hb.2.1]; omega, ?_, ?_⟩
    · rw [hany]
      constructor
      · intro hfalse; cases hfalse
      · intro hpre
        obtain ⟨-, hok⟩ := hb.2.2 hpre
        exact absurd ⟨by simp [hok], hpre⟩ hcond
    · intro hh
      rw [hany] at hh
      cases hh

/-- C1 witness: with a failing order-book query the fallback fires and the
ladder has placed no order. -/
theorem C1_witness :
    orderAfterFailedCancel (real_ladder_buy
      { orderbook_ok := false, asks := [],
        levelAt := fun _ => { max_ps_qty2 := none, odno := none, unfilled_qty := 0,
                              cancel_ok := true } }
      100 1 5 3 (1/2)) = false
    ∧ (buy_with_ask_ladder
      { orderbook_ok := false, asks := [],
        levelAt := fun _ => { max_ps_qty2 := none, odno := none, unfilled_qty := 0,
                              cancel_ok := true } }
      100 1 5 3).events = [] := by
  have h := C1_ladder_safety
    { orderbook_ok := false, asks := [],
      levelAt := fun _ => { max_ps_qty2 := none, odno := none, unfilled_qty := 0,
                            cancel_ok := true } }
    100 1 (1/2) 5 3
  exact ⟨h.1, h.2.2.2 rfl⟩

/-! ## C4 — decimal price formatters -/

theorem digitChar_ne_dot : ∀ d : Nat, digitChar d ≠ '.'
  | 0 => by decide
  | 1 => by decide
  | 2 => by decide
  | 3 => by decide
  | 4 => by decide
  | 5 => by decide
  | 6 => by decide
  | 7 => by decide
  | 8 => by decide
  | 9 => by decide
  | (_ + 10) => by show ('*' : Char) ≠ '.'; decide

theorem natDigitsCore_ne_dot (fuel : Nat) : ∀ (n : Nat) (acc : List Char),
    (∀ c ∈ acc, c ≠ '.') → ∀ c ∈ natDigitsCore fuel n acc, c ≠ '.' := by
  induction fuel with
  | zero =>
    intro n acc hacc c hc
    rw [natDigitsCore] at hc
    exact hacc c hc
  | succ fuel ih =>
    intro n acc hacc c hc
    rw [natDigitsCore] at hc
    by_cases hn : n = 0
    · rw [if_pos hn] at hc; exact hacc c hc
    · rw [if_neg hn] at hc
      refine ih (n / 10) (digitChar (n % 10) :: acc) ?_ c hc
      intro x hx
      rcases List.mem_cons.mp hx with h1 | h2
      · subst h1; exact digitChar_ne_dot _
      · exact hacc x h2

theorem natDigits_ne_dot (n : Nat) : ∀ c ∈ natDigits n, c ≠ '.' := by
  unfold natDigits
  split
  · intro c hc
    have : c = '0' := by simpa using hc
    subst this; decide
  · exact natDigitsCore_ne_dot _ n [] (by intro c hc; cases hc)

theorem natDigitsCore_length_mono (fuel : Nat) : ∀ (n : Nat) (acc : List Char),
    acc.length ≤ (natDigitsCore fuel n acc).length := by
  induction fuel with
  | zero => intro n acc; rw [natDigitsCore]
  | succ fuel ih =>
    intro n acc
    rw [natDigitsCore]
    by_cases hn : n = 0
    · rw [if_pos hn]
    · rw [if_neg hn]
      have := ih (n / 10) (digitChar (n % 10) :: acc)
      simp only [List.length_cons] at this
      omega

theorem natDigits_ne_nil (n : Nat) : natDigits n ≠ [] := by
  unfold natDigits
  split
  · simp
  · rename_i hn
    rw [natDigitsCore, if_neg hn]
    intro he
    have := natDigitsCore_length_mono n (n / 10) [digitChar (n % 10)]
    rw [he] at this
    simp at this

theorem natDigitsCore_length_le (fuel : Nat) : ∀ (k n : Nat) (acc : List Char),
    n < 10 ^ k → (natDigitsCore fuel n acc).length ≤ k + acc.length := by
  induction fuel with
  | zero => intro k n acc _; rw [natDigitsCore]; omega
  | succ fuel ih =>
    intro k n acc h
    rw [natDigitsCore]
    by_cases hn : n = 0
    · rw [if_pos hn]; omega
    · rw [if_neg hn]
      have hk1 : 1 ≤ k := by
        rcases Nat.eq_zero_or_pos k with hk | hk
        · subst hk; simp at h; omega
        · exact hk
      have hpow : 10 ^ k = 10 ^ (k - 1) * 10 := by
        conv_lhs => rw [show k = (k - 1) + 1 from by omega]
        rw [pow_succ]
      have hdiv : n / 10 < 10 ^ (k - 1) := Nat.div_lt_of_lt_mul (by omega)
      have := ih (k - 1) (n / 10) (digitChar (n % 10) :: acc) hdiv
      simp only [List.length_cons] at this
      omega

theorem natDigits_length_le (k n : Nat) (hn : n < 10 ^ k) (hk : 1 ≤ k) :
    (natDigits n).length ≤ k := by
  unfold natDigits
  split
  · simpa using hk
  · have := natDigitsCore_length_le (n + 1) k n [] hn
    simpa using this

theorem padZeros_length (s : List Char) (k : Nat) (h : s.length ≤ k) :
    (padZeros s k).length = k := by
  simp [padZeros]
  omega

theorem padZeros_ne_dot (s : List Char) (k : Nat) (h : ∀ c ∈ s, c ≠ '.') :
    ∀ c ∈ padZeros s k, c ≠ '.' := by
  intro c hc
  rcases List.mem_append.mp hc with h1 | h2
  · have := List.eq_of_mem_replicate h1
    subst this; decide
  · exact h c h2

theorem fracDigits_mk_append (xs ys : List Char) (hys : ∀ c ∈ ys, c ≠ '.') :
    fracDigits (String.mk (xs ++ '.' :: ys)) = ys.length := by
  have hmem : '.' ∈ xs ++ '.' :: ys := by simp
  show (if '.' ∈ xs ++ '.' :: ys then
      ((xs ++ '.' :: ys).reverse.takeWhile (fun c => c ≠ '.')).length else 0) = ys.length
  rw [if_pos hmem, List.reverse_append, List.reverse_cons, List.append_assoc,
    List.singleton_append]
  rw [List.takeWhile_append_of_pos (by
    intro a ha
    simpa using hys a (by simpa using ha))]
  rw [List.takeWhile_cons_of_neg (by simp)]
  simp

theorem fracDigits_mk_nodot (xs : List Char) (hxs : ∀ c ∈ xs, c ≠ '.') :
    fracDigits (String.mk xs) = 0 := by
  show (if '.' ∈ xs then (xs.reverse.takeWhile (fun c => c ≠ '.')).length else 0) = 0
  rw [if_neg (fun hmem => (hxs '.' hmem) rfl)]

theorem reverse_mid_dotted (ip t : List Char) :
    (t ++ '.' :: ip.reverse).reverse = ip ++ '.' :: t.reverse := by
  rw [List.reverse_append, List.reverse_cons, List.reverse_reverse, List.append_assoc,
    List.singleton_append]

/-- Behaviour of the two trailing strips on a rendered `"intpart.fracpart"`
string whose parts contain no dot and whose integer part is non-empty. -/
theorem strip_dotted (ip fp : List Char) (hip : ip ≠ [])
    (hipdot : ∀ c ∈ ip, c ≠ '.') (hfpdot : ∀ c ∈ fp, c ≠ '.') :
    rstrip (rstrip (ip ++ '.' :: fp) '0') '.' ≠ []
    ∧ fracDigits (String.mk (rstrip (rstrip (ip ++ '.' :: fp) '0') '.')) ≤ fp.length
    ∧ ('.' ∈ rstrip (rstrip (ip ++ '.' :: fp) '0') '.' →
        ∀ cl, (rstrip (rstrip (ip ++ '.' :: fp) '0') '.').getLast? = some cl →
          cl ≠ '0' ∧ cl ≠ '.') := by
  have hsplit : (ip ++ '.' :: fp).reverse = fp.reverse ++ '.' :: ip.reverse := by
    rw [List.reverse_append, List.reverse_cons, List.append_assoc, List.singleton_append]
  cases ht : fp.reverse.dropWhile (fun x => x = '0') with
  | nil =>
    have h1 : rstrip (ip ++ '.' :: fp) '0' = ip ++ ['.'] := by
      unfold rstrip
      rw [hsplit, List.dropWhile_append, ht]
      simp only [List.isEmpty_nil, if_true]
      rw [List.dropWhile_cons_of_neg (by simp)]
      rw [List.reverse_cons, List.reverse_reverse]
    have hiprev : ∀ c ∈ ip.reverse, c ≠ '.' := by
      intro c hc; exact hipdot c (by simpa using hc)
    have h2 : rstrip (ip ++ ['.']) '.' = ip := by
      unfold rstrip
      rw [List.reverse_append]
      simp only [List.reverse_cons, List.reverse_nil, List.nil_append,
        List.singleton_append]
      rw [List.dropWhile_cons_of_pos (by simp)]
      cases hrev : ip.reverse with
      | nil =>
        exact absurd (by simpa using congrArg List.reverse hrev) hip
      | cons hh tt =>
        rw [List.dropWhile_cons_of_neg (by
          have : hh ≠ '.' := hiprev hh (by rw [hrev]; simp)
          simpa using this)]
        rw [← hrev, List.reverse_reverse]
    rw [h1, h2]
    refine ⟨hip, ?_, ?_⟩
    · rw [fracDigits_mk_nodot ip hipdot]
      omega
    · intro hdot
      exact absurd rfl (hipdot '.' hdot)
  | cons h0 t0 =>
    have hsub : List.Sublist (h0 :: t0) fp.reverse := by
      rw [← ht]; exact List.dropWhile_sublist _
    have hh0fp : h0 ∈ fp := by
      have : h0 ∈ fp.reverse := hsub.mem (by simp)
      simpa using this
    have hh0dot : h0 ≠ '.' := hfpdot h0 hh0fp
    have hh0zero : h0 ≠ '0' := by
      have hhd := List.head?_dropWhile_not (fun x => decide (x = '0')) fp.reverse
      rw [ht] at hhd
      simpa using hhd
    have h1 : rstrip (ip ++ '.' :: fp) '0' = ip ++ '.' :: (h0 :: t0).reverse := by
      unfold rstrip
      rw [hsplit, List.dropWhile_append, ht]
      simp only [List.isEmpty_cons, Bool.false_eq_true, if_false]
      exact reverse_mid_dotted ip (h0 :: t0)
    have h2 : rstrip (ip ++ '.' :: (h0 :: t0).reverse) '.'
        = ip ++ '.' :: (h0 :: t0).reverse := by
      unfold rstrip
      rw [show (ip ++ '.' :: (h0 :: t0).reverse).reverse
            = (h0 :: t0) ++ '.' :: ip.reverse from by
          rw [List.reverse_append, List.reverse_cons, List.reverse_reverse,
            List.append_assoc, List.singleton_append]]
      rw [List.cons_append]
      rw [List.dropWhile_cons_of_neg (by simpa using hh0dot)]
      rw [← List.cons_append]
      exact reverse_mid_dotted ip (h0 :: t0)
    rw [h1, h2]
    have htok : ∀ c ∈ (h0 :: t0).reverse, c ≠ '.' := by
      intro c hc
      have hc2 : c ∈ h0 :: t0 := by rw [← List.mem_reverse]; exact hc
      have : c ∈ fp.reverse := hsub.mem hc2
      exact hfpdot c (by simpa using this)
    refine ⟨by simp, ?_, ?_⟩
    · rw [fracDigits_mk_append ip (h0 :: t0).reverse htok]
      have := hsub.length_le
      simp only [List.length_reverse] at *
      omega
    · intro hdot cl hcl
      have hlast : (ip ++ '.' :: (h0 :: t0).reverse).getLast? = some h0 := by
        rw [List.reverse_cons]
        rw [show ip ++ '.' :: (t0.reverse ++ [h0]) = (ip ++ '.' :: t0.reverse) ++ [h0]
          from by simp]
        rw [List.getLast?_append]
        rfl
      rw [hlast] at hcl
      have : h0 = cl := by injection hcl
      subst this
      exact ⟨hh0zero, hh0dot⟩

/-- The truncation underlying both formatters never rounds up: the quantized
value is at most the (clamped) input value. -/
theorem truncScaled_le_value (d : Dec) (k : Nat) :
    (truncScaled d k : ℚ) / 10 ^ k ≤ max 0 (decValue d) := by
  unfold truncScaled decValue
  split
  next hman =>
    simp
  next hman =>
    push_neg at hman
    have hcast : ((d.man.toNat : ℚ)) = ((d.man : Int) : ℚ) := by
      exact_mod_cast Int.toNat_of_nonneg (le_of_lt hman)
    split
    next hexp =>
      refine le_max_of_le_right (le_of_eq ?_)
      have hpow : (10 : ℚ) ^ k = 10 ^ (k - d.exp) * 10 ^ d.exp := by
        rw [← pow_add]
        congr 1
        omega
      push_cast
      rw [hcast, hpow]
      have hne : ((10 : ℚ) ^ (k - d.exp)) ≠ 0 := by positivity
      have hne2 : ((10 : ℚ) ^ d.exp) ≠ 0 := by positivity
      field_simp
      ring
    next hexp =>
      push_neg at hexp
      refine le_max_of_le_right ?_
      have h1 : ((d.man.toNat / 10 ^ (d.exp - k) : Nat) : ℚ)
          ≤ (d.man.toNat : ℚ) / (10 : ℚ) ^ (d.exp - k) := by
        have := Nat.cast_div_le (α := ℚ) (m := d.man.toNat) (n := 10 ^ (d.exp - k))
        simpa using this
      have h2 : ((d.man.toNat / 10 ^ (d.exp - k) : Nat) : ℚ) / 10 ^ k
          ≤ ((d.man.toNat : ℚ) / (10 : ℚ) ^ (d.exp - k)) / 10 ^ k :=
        (div_le_div_iff_of_pos_right (by positivity)).mpr h1
      refine h2.trans (le_of_eq ?_)
      rw [div_div, ← pow_add, hcast]
      congr 2
      omega

/-- `Decimal` comparison against 1 in terms of mantissa and exponent. -/
theorem decValue_ge_one_iff (d : Dec) : 1 ≤ decValue d ↔ (10 : Int) ^ d.exp ≤ d.man := by
  unfold decValue
  rw [le_div_iff₀ (by positivity : (0 : ℚ) < (10 : ℚ) ^ d.exp), one_mul]
  constructor
  · intro h; exact_mod_cast h
  · intro h; exact_mod_cast h

/-- `Decimal` positivity in terms of the mantissa. -/
theorem decValue_pos_iff (d : Dec) : 0 < decValue d ↔ 0 < d.man := by
  unfold decValue
  rw [lt_div_iff₀ (by positivity : (0 : ℚ) < (10 : ℚ) ^ d.exp), zero_mul]
  constructor
  · intro h; exact_mod_cast h
  · intro h; exact_mod_cast h

/-- Fractional-digit count of a fixed-point rendering. -/
theorem renderScaled_fracDigits (n digits : Nat) (hd : 1 ≤ digits) :
    fracDigits (String.mk (renderScaled n digits)) = digits := by
  unfold renderScaled
  rw [fracDigits_mk_append _ _ (padZeros_ne_dot _ _ (natDigits_ne_dot _))]
  exact padZeros_length _ _
    (natDigits_length_le digits _ (Nat.mod_lt _ (by positivity)) hd)

/-- Shape of the unit-price formatter output when the quantized coefficient
fits the 28-digit context precision: at most 8 fractional digits, and when a
dot survives the strip the last character is neither `'0'` nor `'.'`
(trailing zeros and a trailing dot are stripped). -/
theorem format_unpr_shape (price : Dec) (hov : truncScaled price 8 < 10 ^ 28) :
    fracDigits (format_ovrs_ord_unpr price) ≤ 8
    ∧ ('.' ∈ (format_ovrs_ord_unpr price).data →
        ∀ cl, (format_ovrs_ord_unpr price).data.getLast? = some cl →
          cl ≠ '0' ∧ cl ≠ '.') := by
  have hip := natDigits_ne_nil (truncScaled price 8 / 10 ^ 8)
  have hipdot := natDigits_ne_dot (truncScaled price 8 / 10 ^ 8)
  have hfpdot : ∀ c ∈ padZeros (natDigits (truncScaled price 8 % 10 ^ 8)) 8, c ≠ '.' :=
    padZeros_ne_dot _ _ (natDigits_ne_dot _)
  have hfplen : (padZeros (natDigits (truncScaled price 8 % 10 ^ 8)) 8).length = 8 :=
    padZeros_length _ _
      (natDigits_length_le 8 _ (Nat.mod_lt _ (by positivity)) (by omega))
  have hs := strip_dotted (natDigits (truncScaled price 8 / 10 ^ 8))
    (padZeros (natDigits (truncScaled price 8 % 10 ^ 8)) 8) hip hipdot hfpdot
  unfold format_ovrs_ord_unpr renderScaled
  rw [if_neg (not_le.mpr hov), if_neg hs.1]
  constructor
  · have := hs.2.1
    rw [hfplen] at this
    exact this
  · exact hs.2.2

/-- The `InvalidOperation` fallback of the unit-price formatter. -/
theorem format_unpr_overflow (price : Dec) (hov : 10 ^ 28 ≤ truncScaled price 8) :
    format_ovrs_ord_unpr price = "0.00000000" := by
  unfold format_ovrs_ord_unpr
  rw [if_pos hov]

/-- The unit-price formatter never shows more than 8 fractional digits, on the
normal path and on the `InvalidOperation` fallback alike. -/
theorem format_unpr_fracDigits_le (price : Dec) :
    fracDigits (format_ovrs_ord_unpr price) ≤ 8 := by
  by_cases hov : 10 ^ 28 ≤ truncScaled price 8
  · rw [format_unpr_overflow price hov]
    decide
  · exact (format_unpr_shape price (not_le.mp hov)).1

/-- For a positive value below 1, the truncated coefficient stays below
`10^k`, so it always fits the 28-digit context precision. -/
theorem truncScaled_lt_pow (d : Dec) (k : Nat) (h : decValue d < 1) :
    truncScaled d k < 10 ^ k := by
  unfold truncScaled
  split
  next => exact Nat.pow_pos (by norm_num)
  next hman =>
    push_neg at hman
    have hvm : d.man < (10 : Int) ^ d.exp := by
      unfold decValue at h
      rw [div_lt_one (by positivity)] at h
      exact_mod_cast h
    have hmn : d.man.toNat < 10 ^ d.exp := by
      have h1 : (d.man.toNat : Int) < (10 : Int) ^ d.exp := by
        rw [Int.toNat_of_nonneg (le_of_lt hman)]
        exact hvm
      exact_mod_cast h1
    split
    next hexp =>
      calc d.man.toNat * 10 ^ (k - d.exp)
          < 10 ^ d.exp * 10 ^ (k - d.exp) :=
            (Nat.mul_lt_mul_right (Nat.pow_pos (by norm_num))).mpr hmn
        _ = 10 ^ k := by
            rw [← pow_add]
            congr 1
            omega
    next hexp =>
      push_neg at hexp
      apply Nat.div_lt_of_lt_mul
      calc d.man.toNat < 10 ^ d.exp := hmn
        _ = 10 ^ (d.exp - k) * 10 ^ k := by
            rw [← pow_add]
            congr 1
            omega

/-- C4 counterexample: the claim's universal formatting rules fail on the
code's `InvalidOperation` path.  `str(1e21) = "1e+21"` denotes `10^21`;
truncating it to 8 fractional digits needs a 30-digit coefficient, beyond the
28-digit `Decimal` context precision, so `_format_ovrs_ord_unpr(1e21)`
returns the fallback `"0.00000000"` — a surviving dot followed by trailing
zeros, not stripped.  Likewise `10^27 ≥ 1` but `_format_order_price(1e27)`
returns `"0"` with 0 fractional digits, not a 2-digit truncation. -/
theorem C4_counterexample :
    format_ovrs_ord_unpr { man := 1000000000000000000000, exp := 0 } = "0.00000000"
    ∧ '.' ∈ (format_ovrs_ord_unpr { man := 1000000000000000000000, exp := 0 }).data
    ∧ (format_ovrs_ord_unpr { man := 1000000000000000000000, exp := 0 }).data.getLast?
        = some '0'
    ∧ 1 ≤ decValue { man := 1000000000000000000000000000, exp := 0 }
    ∧ format_order_price { man := 1000000000000000000000000000, exp := 0 } = "0"
    ∧ fracDigits (format_order_price { man := 1000000000000000000000000000, exp := 0 })
        = 0 := by
  refine ⟨by decide, by decide, by decide, ?_, by decide, by decide⟩
  rw [decValue_ge_one_iff]
  decide

/-- C4 (amended): the unit-price formatter truncates toward zero (never up)
to at most 8 fractional digits; whenever the truncated coefficient fits the
28-digit `Decimal` context precision it also strips trailing zeros (and a
trailing dot), and beyond that bound it returns the fallback `"0.00000000"`
— so the output never exceeds 8 fractional digits in any case, and the
binary-float sum `0.1 + 0.2` (Python `str` `"0.30000000000000004"`) formats
to `"0.3"`.  The order-submission formatter truncates (never up) to exactly
2 fractional digits for prices `≥ 1` whose truncated coefficient fits the
precision, returns the fallback `"0"` above it, and truncates to exactly 4
fractional digits for every positive price `< 1` (where the coefficient
always fits). -/
theorem C4_amended_price_formatters :
    format_ovrs_ord_unpr pySum_0_1_0_2 = "0.3"
    ∧ (∀ d : Dec, (truncScaled d 8 : ℚ) / 10 ^ 8 ≤ max 0 (decValue d))
    ∧ (∀ d : Dec, fracDigits (format_ovrs_ord_unpr d) ≤ 8)
    ∧ (∀ d : Dec, truncScaled d 8 < 10 ^ 28 →
        '.' ∈ (format_ovrs_ord_unpr d).data →
        ∀ cl, (format_ovrs_ord_unpr d).data.getLast? = some cl →
          cl ≠ '0' ∧ cl ≠ '.')
    ∧ (∀ d : Dec, 10 ^ 28 ≤ truncScaled d 8 →
        format_ovrs_ord_unpr d = "0.00000000")
    ∧ (∀ d : Dec, 1 ≤ decValue d → truncScaled d 2 < 10 ^ 28 →
        format_order_price d = String.mk (renderScaled (truncScaled d 2) 2)
        ∧ fracDigits (format_order_price d) = 2
        ∧ (truncScaled d 2 : ℚ) / 10 ^ 2 ≤ decValue d)
    ∧ (∀ d : Dec, 1 ≤ decValue d → 10 ^ 28 ≤ truncScaled d 2 →
        format_order_price d = "0")
    ∧ (∀ d : Dec, 0 < decValue d → decValue d < 1 →
        format_order_price d = String.mk (renderScaled (truncScaled d 4) 4)
        ∧ fracDigits (format_order_price d) = 4
        ∧ (truncScaled d 4 : ℚ) / 10 ^ 4 ≤ decValue d) := by
  refine ⟨by decide, truncScaled_le_value (k := 8), format_unpr_fracDigits_le,
    fun d hov => (format_unpr_shape d hov).2, format_unpr_overflow,
    fun d hd hov => ?_, fun d hd hov => ?_, fun d hd0 hd1 => ?_⟩
  · have hman : ¬(d.man ≤ 0) := by
      have := (decValue_pos_iff d).mp (lt_of_lt_of_le one_pos hd)
      omega
    have hge : (10 : Int) ^ d.exp ≤ d.man := (decValue_ge_one_iff d).mp hd
    have hfmt : format_order_price d = String.mk (renderScaled (truncScaled d 2) 2) := by
      unfold format_order_price
      rw [if_neg hman, if_pos hge, if_neg (not_le.mpr hov)]
    refine ⟨hfmt, ?_, ?_⟩
    · rw [hfmt]
      exact renderScaled_fracDigits _ 2 (by omega)
    · have := truncScaled_le_value d 2
      rwa [max_eq_right (le_of_lt (lt_of_lt_of_le one_pos hd))] at this
  · have hman : ¬(d.man ≤ 0) := by
      have := (decValue_pos_iff d).mp (lt_of_lt_of_le one_pos hd)
      omega
    have hge : (10 : Int) ^ d.exp ≤ d.man := (decValue_ge_one_iff d).mp hd
    unfold format_order_price
    rw [if_neg hman, if_pos hge, if_pos hov]
  · have hman : ¬(d.man ≤ 0) := by
      have := (decValue_pos_iff d).mp hd0
      omega
    have hlt : ¬((10 : Int) ^ d.exp ≤ d.man) := by
      intro hcon
      exact absurd ((decValue_ge_one_iff d).mpr hcon) (not_le.mpr hd1)
    have hsmall : ¬(10 ^ 28 ≤ truncScaled d 4) := by
      have h4 := truncScaled_lt_pow d 4 hd1
      have : truncScaled d 4 < 10 ^ 28 := lt_of_lt_of_le h4 (by norm_num)
      exact not_le.mpr this
    have hfmt : format_order_price d = String.mk (renderScaled (truncScaled d 4) 4) := by
      unfold format_order_price
      rw [if_neg hman, if_neg hlt, if_neg hsmall]
    refine ⟨hfmt, ?_, ?_⟩
    · rw [hfmt]
      exact renderScaled_fracDigits _ 4 (by omega)
    · have := truncScaled_le_value d 4
      rwa [max_eq_right (le_of_lt hd0)] at this

/-- C4 witness: concrete checks — `1.505` formats to `"1.50"` (2 digits,
truncated), `0.12345` to `"0.1234"` (4 digits, truncated), the truncated
values never exceed the inputs, and `10^21` hits the fallback. -/
theorem C4_witness :
    format_order_price { man := 1505, exp := 3 } = "1.50"
    ∧ fracDigits (format_order_price { man := 1505, exp := 3 }) = 2
    ∧ format_order_price { man := 12345, exp := 5 } = "0.1234"
    ∧ (truncScaled { man := 12345, exp := 5 } 4 : ℚ) / 10 ^ 4
        ≤ decValue { man := 12345, exp := 5 }
    ∧ format_ovrs_ord_unpr { man := 1000000000000000000000, exp := 0 }
        = "0.00000000" := by
  have h2 := C4_amended_price_formatters.2.2.2.2.2.1 { man := 1505, exp := 3 }
    (by rw [decValue_ge_one_iff]; decide) (by decide)
  have h4 := C4_amended_price_formatters.2.2.2.2.2.2.2 { man := 12345, exp := 5 }
    (by rw [decValue_pos_iff]; decide)
    (by
      have : ¬((10 : Int) ^ (5 : Nat) ≤ 12345) := by decide
      by_contra hcon
      push_neg at hcon
      exact this ((decValue_ge_one_iff { man := 12345, exp := 5 }).mp hcon))
  have hov := C4_amended_price_formatters.2.2.2.2.1
    { man := 1000000000000000000000, exp := 0 } (by decide)
  refine ⟨?_, h2.2.1, ?_, h4.2.2, hov⟩
  · rw [h2.1]; decide
  · rw [h4.1]; decide

end MyKis
